import Mathlib

/-!
Shallow embedding of the Galton-board simulator in src/main.py.

Machine reals from the Python source are modelled as exact rationals;
the uniform random source (random.random, yielding values in [0,1)) is
modelled as an explicit stream of rationals, one draw per decision row.
Operations that can raise in Python (list indexing out of range, missing
dictionary keys) are modelled as Option-returning functions, with none
standing for the raised exception.
-/

/-- WIDTH from the source configuration block. -/
def WIDTH : Nat := 600

/-- HEIGHT from the source configuration block. -/
def HEIGHT : Nat := 680

/-- NUM_ROWS: the row count R of the board. -/
def NUM_ROWS : Nat := 10

/-- PEG_RADIUS from the source configuration block. -/
def PEG_RADIUS : Nat := 3

/-- BALL_RADIUS from the source configuration block. -/
def BALL_RADIUS : Nat := 3

/-- LANDED_BALL_RADIUS from the source configuration block. -/
def LANDED_BALL_RADIUS : Nat := 2

/-- LANDED_BALL_STEP from the source configuration block. -/
def LANDED_BALL_STEP : Nat := 5

/-- PEG_SPACING_X from the source configuration block. -/
def PEG_SPACING_X : Nat := 32

/-- PEG_SPACING_Y from the source configuration block. -/
def PEG_SPACING_Y : Nat := 28

/-- BOARD_TOP from the source configuration block. -/
def BOARD_TOP : Nat := 80

/-- CENTER_X = WIDTH // 2. -/
def CENTER_X : Nat := WIDTH / 2

/-- NUM_BINS = NUM_ROWS + 1. -/
def NUM_BINS : Nat := NUM_ROWS + 1

/-- BIN_WIDTH = PEG_SPACING_X. -/
def BIN_WIDTH : Nat := PEG_SPACING_X

/-- BIN_TOP = BOARD_TOP + NUM_ROWS * PEG_SPACING_Y + 16. -/
def BIN_TOP : Nat := BOARD_TOP + NUM_ROWS * PEG_SPACING_Y + 16

/-- BIN_BOTTOM = HEIGHT - 25. -/
def BIN_BOTTOM : Nat := HEIGHT - 25

/-- SPAWN_INTERVAL from the source configuration block. -/
def SPAWN_INTERVAL : Nat := 4

/-- MAX_BALLS from the source configuration block. -/
def MAX_BALLS : Nat := 200

/-- MODE_GAUSS string constant. -/
def MODE_GAUSS : String := "gaussian"

/-- MODE_PARETO string constant. -/
def MODE_PARETO : String := "pareto"

/-- MODE_COMPETITION string constant. -/
def MODE_COMPETITION : String := "reputation"

/-- Colors are (r, g, b) byte triples; channels are modelled as integers. -/
abbrev Color := Int × Int × Int

/-- PALETTE_GAUSS from the source. -/
def PALETTE_GAUSS : List Color :=
  [(80, 200, 140), (60, 180, 220), (100, 220, 180), (140, 200, 100),
   (80, 160, 240), (120, 230, 160), (70, 190, 200), (160, 220, 80),
   (90, 170, 255), (50, 210, 170)]

/-- PALETTE_PARETO from the source. -/
def PALETTE_PARETO : List Color :=
  [(240, 70, 70), (250, 130, 40), (240, 200, 40), (255, 90, 150),
   (230, 160, 50), (255, 60, 100), (240, 110, 80), (250, 180, 70),
   (220, 50, 130), (255, 150, 30)]

/-- PALETTE_COMPETITION from the source. -/
def PALETTE_COMPETITION : List Color :=
  [(150, 100, 255), (180, 80, 230), (120, 130, 255), (200, 100, 200),
   (100, 80, 240), (170, 120, 250), (140, 60, 220), (190, 140, 255),
   (110, 100, 230), (160, 80, 200)]

/-- Source `peg_pos(row, col)`:
`x = CENTER_X + (col - row / 2.0) * PEG_SPACING_X`,
`y = BOARD_TOP + row * PEG_SPACING_Y`. -/
def peg_pos (row col : Nat) : Rat × Rat :=
  ((CENTER_X : Rat) + ((col : Rat) - (row : Rat) / 2) * (PEG_SPACING_X : Rat),
   (BOARD_TOP : Rat) + (row : Rat) * (PEG_SPACING_Y : Rat))

/-- Source `bin_center_x(index)`:
`CENTER_X + (index - NUM_ROWS / 2.0) * BIN_WIDTH`. -/
def bin_center_x (index : Nat) : Rat :=
  (CENTER_X : Rat) + ((index : Rat) - (NUM_ROWS : Rat) / 2) * (BIN_WIDTH : Rat)

/-- Model of the library call `random.randint(0, 1)`: an independent fair
draw over {0, 1}, realized from one uniform draw u in [0,1) by splitting
the unit interval in half, so each value has probability 0.5. -/
def randint01 (u : Rat) : Nat :=
  if u < 1 / 2 then 0 else 1

/-- Gaussian branch of `generate_choices`: one `random.randint(0, 1)` per
row, appended for NUM_ROWS rows. -/
def gauss_choices (draws : Nat → Rat) : List Nat :=
  (List.range NUM_ROWS).map fun i => randint01 (draws i)

/-- Per-row right-probability of the Pareto branch, from the source:
`n = max(num_lefts, 1); p_right = 0.5 / n`. -/
def pareto_p_right (lefts : Nat) : Rat :=
  1 / 2 / ((max lefts 1 : Nat) : Rat)

/-- Pareto branch loop of `generate_choices`, instrumented to also record
the right-probability used at each row. Arguments: remaining rows,
running `num_lefts`, index of the next uniform draw. A draw below the
row's probability appends 1 (lefts unchanged); otherwise 0 is appended
and `num_lefts` is incremented. -/
def paretoGo (draws : Nat → Rat) : Nat → Nat → Nat → List (Rat × Nat)
  | 0, _, _ => []
  | r + 1, lefts, i =>
    let p := pareto_p_right lefts
    if draws i < p then (p, 1) :: paretoGo draws r lefts (i + 1)
    else (p, 0) :: paretoGo draws r (lefts + 1) (i + 1)

/-- Full instrumented Pareto decision sequence (probability, decision). -/
def pareto_rows (draws : Nat → Rat) : List (Rat × Nat) :=
  paretoGo draws NUM_ROWS 0 0

/-- Competition-mode value `k`, from the source line
`k = sum(bin_counts[num_rights + 1:]) if bin_counts else 0`
(a None/empty `bin_counts`, both falsy in Python, is modelled as []). -/
def comp_k (bins : List Nat) (rights : Nat) : Nat :=
  if bins = [] then 0 else ((bins.drop (rights + 1)).sum)

/-- Per-row right-probability of the Competition branch, from the source:
`p_right = min(0.5 / k, 0.5) if k > 0 else 0.5`. -/
def comp_p_right (bins : List Nat) (rights : Nat) : Rat :=
  let k := comp_k bins rights
  if 0 < k then min (1 / 2 / (k : Rat)) (1 / 2) else 1 / 2

/-- Competition branch loop of `generate_choices`, instrumented to also
record the right-probability used at each row. Arguments: remaining rows,
running `num_rights`, index of the next uniform draw. A draw below the
row's probability appends 1 and increments `num_rights`; otherwise 0 is
appended and `num_rights` is unchanged. -/
def competitionGo (bins : List Nat) (draws : Nat → Rat) :
    Nat → Nat → Nat → List (Rat × Nat)
  | 0, _, _ => []
  | r + 1, rights, i =>
    let p := comp_p_right bins rights
    if draws i < p then (p, 1) :: competitionGo bins draws r (rights + 1) (i + 1)
    else (p, 0) :: competitionGo bins draws r rights (i + 1)

/-- Full instrumented Competition decision sequence (probability, decision). -/
def competition_rows (bins : List Nat) (draws : Nat → Rat) : List (Rat × Nat) :=
  competitionGo bins draws NUM_ROWS 0 0

/-- Source `generate_choices(mode, bin_counts)`. The `bin_counts=None`
default is modelled as the empty list (None and [] are both falsy where
`bin_counts` is tested). An unrecognized mode falls through every branch
and the function returns the initial empty `choices` list. -/
def generate_choices (mode : String) (bin_counts : List Nat)
    (draws : Nat → Rat) : List Nat :=
  if mode = MODE_GAUSS then gauss_choices draws
  else if mode = MODE_PARETO then (pareto_rows draws).map Prod.snd
  else if mode = MODE_COMPETITION then
    (competition_rows bin_counts draws).map Prod.snd
  else []

/-- Number of 1 (right) decisions among the first j instrumented rows. -/
def rightsBefore (rows : List (Rat × Nat)) (j : Nat) : Nat :=
  ((rows.take j).map fun r => if r.2 = 1 then 1 else 0).sum

/-- Number of 0 (left) decisions among the first j instrumented rows. -/
def leftsBefore (rows : List (Rat × Nat)) (j : Nat) : Nat :=
  ((rows.take j).map fun r => if r.2 = 0 then 1 else 0).sum

/-- Column of the ball when it reaches row i: the count of right
decisions made at rows 0..i-1 (each 0/1 decision value added once). -/
def colAt (choices : List Nat) (i : Nat) : Nat :=
  (choices.take i).sum

/-- First waypoint of every path: `(CENTER_X, BOARD_TOP - 14)`. -/
def entry_point : Rat × Rat :=
  ((CENTER_X : Rat), (BOARD_TOP : Rat) - 14)

/-- Waypoint recorded for one row in `_build_path`: the peg position at
(row, col) offset horizontally by `(-1 if d == 0 else 1) * (PEG_RADIUS +
BALL_RADIUS + 2)` and vertically by `PEG_RADIUS + BALL_RADIUS`. -/
def row_waypoint (row col d : Nat) : Rat × Rat :=
  let pp := peg_pos row col
  let offset_x : Rat :=
    (if d = 0 then -1 else 1) * ((PEG_RADIUS : Rat) + (BALL_RADIUS : Rat) + 2)
  (pp.1 + offset_x, pp.2 + (PEG_RADIUS : Rat) + (BALL_RADIUS : Rat))

/-- Row loop of `_build_path`: `for row in range(NUM_ROWS)` reading
`self.choices[row]` and accumulating `col += d`. Arguments: remaining
rows, current row, current column. Indexing `choices` out of range (the
Python IndexError) yields none. -/
def build_path_rows (choices : List Nat) : Nat → Nat → Nat → Option (List (Rat × Rat))
  | 0, _, _ => some []
  | r + 1, row, col =>
    match choices[row]? with
    | none => none
    | some d =>
      match build_path_rows choices r (row + 1) (col + d) with
      | none => none
      | some rest => some (row_waypoint row col d :: rest)

/-- Source `Ball._build_path`: entry point, one waypoint per row, then the
final resting point `(bin_center_x(final_bin), BIN_TOP + 10)`. -/
def build_path (choices : List Nat) (final_bin : Nat) : Option (List (Rat × Rat)) :=
  match build_path_rows choices NUM_ROWS 0 0 with
  | none => none
  | some mids =>
    some (entry_point :: mids ++ [(bin_center_x final_bin, (BIN_TOP : Rat) + 10)])

/-- Source class `Ball`: decision sequence, terminal bin, waypoint path,
current segment index, progress t, per-ball speed, position, landed flag
and resolved color. -/
structure Ball where
  choices : List Nat
  final_bin : Nat
  path : List (Rat × Rat)
  segment : Nat
  t : Rat
  speed : Rat
  x : Rat
  y : Rat
  landed : Bool
  color : Color
  deriving DecidableEq, Repr

/-- Clamp one color channel to [0, 255], from
`max(0, min(255, c + random.randint(-15, 15)))`. -/
def clampByte (v : Int) : Int :=
  max 0 (min 255 v)

/-- Per-channel color jitter of `Ball.__init__`; the three sampled
`random.randint(-15, 15)` deltas are passed in explicitly. -/
def jitterColor (c : Color) (j : Color) : Color :=
  (clampByte (c.1 + j.1), clampByte (c.2.1 + j.2.1), clampByte (c.2.2 + j.2.2))

/-- Source dictionary `palettes = {MODE_GAUSS: ..., MODE_PARETO: ...,
MODE_COMPETITION: ...}`; a missing key (Python KeyError) yields none. -/
def palettes (mode : String) : Option (List Color) :=
  if mode = MODE_GAUSS then some PALETTE_GAUSS
  else if mode = MODE_PARETO then some PALETTE_PARETO
  else if mode = MODE_COMPETITION then some PALETTE_COMPETITION
  else none

/-- Source `Ball.__init__(mode, bin_counts)`. The externally sampled
values are passed in explicitly: `draws` feeds `generate_choices`,
`speed` stands for `random.uniform(0.028, 0.042)`, `cidx` for the index
sampled by `random.choice` (reduced mod the palette length to keep the
model total) and `jit` for the three channel jitters. Failure points are
kept in source order: `_build_path` (IndexError on a too-short choices
list), the `path[0]` read, and the `palettes[mode]` lookup (KeyError). -/
def mkBall (mode : String) (bin_counts : List Nat) (draws : Nat → Rat)
    (speed : Rat) (cidx : Nat) (jit : Color) : Option Ball :=
  match build_path (generate_choices mode bin_counts draws)
      ((generate_choices mode bin_counts draws).sum) with
  | none => none
  | some path =>
    match path[0]? with
    | none => none
    | some xy =>
      match palettes mode with
      | none => none
      | some pal =>
        match pal[cidx % pal.length]? with
        | none => none
        | some base =>
          some { choices := generate_choices mode bin_counts draws
                 final_bin := (generate_choices mode bin_counts draws).sum
                 path := path
                 segment := 0
                 t := 0
                 speed := speed
                 x := xy.1
                 y := xy.2
                 landed := false
                 color := jitterColor base jit }

/-- Smoothstep easing from `Ball.update`: `t_ease = t * t * (3 - 2 * t)`. -/
def smoothstep (t : Rat) : Rat :=
  t * t * (3 - 2 * t)

/-- Interpolation tail of `Ball.update`: reads `path[segment]` and
`path[segment + 1]` (none models the IndexError) and moves the position
along the straight segment with smoothstep-eased timing. -/
def moveAlong (b : Ball) (t : Rat) (seg : Nat) : Option Ball :=
  match b.path[seg]?, b.path[seg + 1]? with
  | some p0, some p1 =>
    let te := smoothstep t
    some { b with
           t := t
           segment := seg
           x := p0.1 + (p1.1 - p0.1) * te
           y := p0.2 + (p1.2 - p0.2) * te }
  | _, _ => none

/-- Source `Ball.update`: landed balls return unchanged; otherwise t
advances by the speed; on reaching 1.0 it wraps by subtracting 1.0 and
the segment advances; if the segment passes the last one the ball lands
and snaps to `path[-1]`; otherwise the position is interpolated. -/
def Ball.update (b : Ball) : Option Ball :=
  if b.landed then some b
  else
    let t1 := b.t + b.speed
    if 1 ≤ t1 then
      let seg := b.segment + 1
      if b.path.length - 1 ≤ seg then
        match b.path.getLast? with
        | none => none
        | some pl =>
          some { b with
                 t := t1 - 1
                 segment := seg
                 landed := true
                 x := pl.1
                 y := pl.2 }
      else moveAlong b (t1 - 1) seg
    else moveAlong b t1 b.segment

/-- Invariant maintained by every ball the simulation creates: the path
has at least two waypoints, and while the ball is in flight the current
segment has a next waypoint, so `path[segment]` and `path[segment + 1]`
are both in bounds. -/
def BallInv (b : Ball) : Prop :=
  2 ≤ b.path.length ∧ (b.landed = false → b.segment + 1 < b.path.length)

/-- Board-run state owned by `main` (lines 288-294): in-flight balls,
per-bin landed counts, landed ball dots, spawn cadence counters and the
paused flag. -/
structure BoardState where
  active_balls : List Ball
  bin_counts : List Nat
  landed_positions : List (Rat × Rat × Color)
  spawn_timer : Nat
  total_spawned : Nat
  paused : Bool
  deriving DecidableEq, Repr

/-- Fresh board state built at the start of a run and again after every
reset: no balls, all bin counts zero, timers zero. -/
def initBoardState : BoardState :=
  { active_balls := []
    bin_counts := List.replicate NUM_BINS 0
    landed_positions := []
    spawn_timer := 0
    total_spawned := 0
    paused := false }

/-- One landed ball recorded (lines 347-351): `bin_counts[b] += 1`, then
the resting dot position from the new count. Indexing out of range (the
Python IndexError) yields none. -/
def landStep (bins : List Nat) (b : Ball) : Option (List Nat × (Rat × Rat × Color)) :=
  match bins[b.final_bin]? with
  | none => none
  | some c =>
    some (bins.set b.final_bin (c + 1),
          (bin_center_x b.final_bin,
           (BIN_BOTTOM : Rat) - (((c : Rat) + 1) - 1) * (LANDED_BALL_STEP : Rat)
             - (LANDED_BALL_RADIUS : Rat),
           b.color))

/-- Landing phase of one tick (lines 344-354): walk the updated ball
list in order; each landed ball increments its bin and appends a resting
dot, the rest stay active. Returns (new bin counts, appended resting
dots, still-active balls). -/
def processLandings : List Ball → List Nat →
    Option (List Nat × List (Rat × Rat × Color) × List Ball)
  | [], bins => some (bins, [], [])
  | b :: rest, bins =>
    if b.landed then
      match landStep bins b with
      | none => none
      | some st =>
        match processLandings rest st.1 with
        | none => none
        | some res => some (res.1, st.2 :: res.2.1, res.2.2)
    else
      match processLandings rest bins with
      | none => none
      | some res => some (res.1, res.2.1, b :: res.2.2)

/-- Spawn phase of one tick (lines 335-339): increment the spawn timer;
when it reaches SPAWN_INTERVAL and fewer than MAX_BALLS were spawned,
reset the timer, append one freshly built ball and count it. Returns
(new spawn timer, ball list, new total). -/
def spawn_phase (mode : String) (draws : Nat → Rat) (speed : Rat) (cidx : Nat)
    (jit : Color) (s : BoardState) : Option (Nat × List Ball × Nat) :=
  let st := s.spawn_timer + 1
  if SPAWN_INTERVAL ≤ st ∧ s.total_spawned < MAX_BALLS then
    match mkBall mode s.bin_counts draws speed cidx jit with
    | none => none
    | some b => some (0, s.active_balls ++ [b], s.total_spawned + 1)
  else some (st, s.active_balls, s.total_spawned)

/-- One per-tick state transition of the run loop (lines 334-354). When
paused, nothing changes. Otherwise: spawn phase (reading the current
bin counts), then every ball advances, then the landing phase increments
bin counts and removes landed balls. -/
def tick (mode : String) (draws : Nat → Rat) (speed : Rat) (cidx : Nat)
    (jit : Color) (s : BoardState) : Option BoardState :=
  if s.paused then some s
  else
    match spawn_phase mode draws speed cidx jit s with
    | none => none
    | some sp =>
      match sp.2.1.mapM Ball.update with
      | none => none
      | some updated =>
        match processLandings updated s.bin_counts with
        | none => none
        | some res =>
          some { s with
                 active_balls := res.2.2
                 bin_counts := res.1
                 landed_positions := s.landed_positions ++ res.2.1
                 spawn_timer := sp.1
                 total_spawned := sp.2.2 }

/-- Concrete sample ball used to exercise `Ball.update` mid-flight. -/
def wBall6 : Ball :=
  { choices := []
    final_bin := 0
    path := [(0, 0), (8, 28), (16, 56)]
    segment := 0
    t := 1 / 2
    speed := 1 / 4
    x := 0
    y := 0
    landed := false
    color := (0, 0, 0) }

/-- Concrete sample landed ball used to exercise the landing phase. -/
def wBall8 : Ball :=
  { choices := []
    final_bin := 3
    path := [(0, 0), (1, 1)]
    segment := 1
    t := 0
    speed := 1 / 8
    x := 1
    y := 1
    landed := true
    color := (0, 0, 0) }

/-- Concrete board state about to spawn a ball on the next tick. -/
def wState9 : BoardState :=
  { active_balls := []
    bin_counts := List.replicate NUM_BINS 0
    landed_positions := []
    spawn_timer := 3
    total_spawned := 0
    paused := false }

/-- Ball produced by `mkBall` in gaussian mode from the constant draw
stream 3/4 (every decision 1), speed 1/32, palette index 0, no jitter. -/
def wBall9 : Ball :=
  { choices := [1, 1, 1, 1, 1, 1, 1, 1, 1, 1]
    final_bin := 10
    path := [(300, 66), (308, 86), (324, 114), (340, 142), (356, 170),
             (372, 198), (388, 226), (404, 254), (420, 282), (436, 310),
             (452, 338), (460, 386)]
    segment := 0
    t := 0
    speed := 1 / 32
    x := 300
    y := 66
    landed := false
    color := (80, 200, 140) }

/-! ### List helper lemmas -/

theorem getD_of_lt {α : Type} (l : List α) (j : Nat) (d : α) (h : j < l.length) :
    l[j]? = some (l.getD j d) := by
  induction l generalizing j with
  | nil => simp at h
  | cons a t ih =>
    cases j with
    | zero => simp
    | succ j =>
      simp only [List.length_cons, Nat.add_lt_add_iff_right] at h
      simpa using ih j h

theorem getD_append_left {α : Type} (l l2 : List α) (j : Nat) (d : α)
    (h : j < l.length) : (l ++ l2).getD j d = l.getD j d := by
  induction l generalizing j with
  | nil => simp at h
  | cons a t ih =>
    cases j with
    | zero => simp
    | succ j =>
      simp only [List.length_cons, Nat.add_lt_add_iff_right] at h
      simpa using ih j h

theorem getD_append_length {α : Type} (l : List α) (a : α) (d : α) :
    (l ++ [a]).getD l.length d = a := by
  induction l with
  | nil => simp
  | cons b t ih => simp [ih]

theorem getD_set_self (l : List Nat) (i v : Nat) (h : i < l.length) :
    (l.set i v).getD i 0 = v := by
  induction l generalizing i with
  | nil => simp at h
  | cons a t ih =>
    cases i with
    | zero => simp
    | succ i =>
      simp only [List.length_cons, Nat.add_lt_add_iff_right] at h
      simpa using ih i h

theorem getD_set_ne (l : List Nat) (i j v : Nat) (h : i ≠ j) :
    (l.set i v).getD j 0 = l.getD j 0 := by
  induction l generalizing i j with
  | nil => simp
  | cons a t ih =>
    cases i with
    | zero =>
      cases j with
      | zero => exact absurd rfl h
      | succ j => simp
    | succ i =>
      cases j with
      | zero => simp
      | succ j =>
        have : i ≠ j := by omega
        simpa using ih i j this

theorem sum_take_succ_getD (l : List Nat) (j : Nat) (h : j < l.length) :
    (l.take (j + 1)).sum = (l.take j).sum + l.getD j 0 := by
  induction l generalizing j with
  | nil => simp at h
  | cons a t ih =>
    cases j with
    | zero => simp
    | succ j =>
      simp only [List.length_cons, Nat.add_lt_add_iff_right] at h
      simp only [List.take_succ_cons, List.sum_cons, ih j h, List.getD_cons_succ]
      omega

theorem sum_le_length (l : List Nat) (h : ∀ x ∈ l, x ≤ 1) : l.sum ≤ l.length := by
  induction l with
  | nil => simp
  | cons a t ih =>
    have ha : a ≤ 1 := h a (by simp)
    have ht : t.sum ≤ t.length := ih fun x hx => h x (by simp [hx])
    simp only [List.sum_cons, List.length_cons]
    omega

theorem drop_sum_zero (l : List Nat) (h : ∀ x ∈ l, x = 0) (m : Nat) :
    (l.drop m).sum = 0 := by
  induction l generalizing m with
  | nil => simp
  | cons a t ih =>
    cases m with
    | zero =>
      have ha : a = 0 := h a (by simp)
      have ht : (t.drop 0).sum = 0 := ih (fun x hx => h x (by simp [hx])) 0
      simp only [List.drop_zero] at ht
      simp [ha, ht]
    | succ m => simpa using ih (fun x hx => h x (by simp [hx])) m

theorem drop_eq_getD_cons (l : List Nat) (r : Nat) (h : r < l.length) :
    l.drop r = l.getD r 0 :: l.drop (r + 1) := by
  induction l generalizing r with
  | nil => simp at h
  | cons a t ih =>
    cases r with
    | zero => simp
    | succ r =>
      simp only [List.length_cons, Nat.add_lt_add_iff_right] at h
      simpa using ih r h

theorem getLast?_eq_getLastD {α : Type} (l : List α) (d : α) (h : l ≠ []) :
    l.getLast? = some (l.getLastD d) := by
  induction l with
  | nil => exact absurd rfl h
  | cons a t ih =>
    cases t with
    | nil => simp
    | cons b u =>
      have := ih (by simp)
      simpa [List.getLast?_cons_cons] using this

theorem rightsBefore_succ (rows : List (Rat × Nat)) (j : Nat)
    (h : j < rows.length) :
    rightsBefore rows (j + 1) =
      rightsBefore rows j + (if (rows.getD j (0, 0)).2 = 1 then 1 else 0) := by
  induction rows generalizing j with
  | nil => simp at h
  | cons a t ih =>
    cases j with
    | zero => simp [rightsBefore]
    | succ j =>
      simp only [List.length_cons, Nat.add_lt_add_iff_right] at h
      have := ih j h
      simp only [rightsBefore, List.take_succ_cons, List.map_cons, List.sum_cons,
        List.getD_cons_succ] at this ⊢
      omega

theorem leftsBefore_succ (rows : List (Rat × Nat)) (j : Nat)
    (h : j < rows.length) :
    leftsBefore rows (j + 1) =
      leftsBefore rows j + (if (rows.getD j (0, 0)).2 = 0 then 1 else 0) := by
  induction rows generalizing j with
  | nil => simp at h
  | cons a t ih =>
    cases j with
    | zero => simp [leftsBefore]
    | succ j =>
      simp only [List.length_cons, Nat.add_lt_add_iff_right] at h
      have := ih j h
      simp only [leftsBefore, List.take_succ_cons, List.map_cons, List.sum_cons,
        List.getD_cons_succ] at this ⊢
      omega

/-! ### Decision-process lemmas -/

theorem competitionGo_length (bins : List Nat) (draws : Nat → Rat) :
    ∀ r s i, (competitionGo bins draws r s i).length = r := by
  intro r
  induction r with
  | zero => intro s i; rfl
  | succ r ih =>
    intro s i
    simp only [competitionGo]
    by_cases h : draws i < comp_p_right bins s
    · simp [h, ih]
    · simp [h, ih]

theorem competitionGo_spec (bins : List Nat) (draws : Nat → Rat) :
    ∀ r s i j, j < r →
      ((competitionGo bins draws r s i).getD j (0, 0)).1 =
        comp_p_right bins (s + rightsBefore (competitionGo bins draws r s i) j) ∧
      ((competitionGo bins draws r s i).getD j (0, 0)).2 =
        (if draws (i + j) < ((competitionGo bins draws r s i).getD j (0, 0)).1
         then 1 else 0) := by
  intro r
  induction r with
  | zero => intro s i j hj; exact absurd hj (Nat.not_lt_zero j)
  | succ r ih =>
    intro s i j hj
    by_cases h : draws i < comp_p_right bins s
    · have hgo : competitionGo bins draws (r + 1) s i =
          (comp_p_right bins s, 1) :: competitionGo bins draws r (s + 1) (i + 1) := by
        simp [competitionGo, h]
      cases j with
      | zero =>
        rw [hgo]
        refine ⟨by simp [rightsBefore], by simp [h]⟩
      | succ j =>
        have hj2 : j < r := by omega
        have IH := ih (s + 1) (i + 1) j hj2
        rw [hgo]
        simp only [List.getD_cons_succ]
        have hrb : rightsBefore
            ((comp_p_right bins s, 1) :: competitionGo bins draws r (s + 1) (i + 1))
            (j + 1) = 1 + rightsBefore (competitionGo bins draws r (s + 1) (i + 1)) j := by
          simp [rightsBefore, List.take_succ_cons]
        rw [hrb]
        have harr : s + (1 + rightsBefore (competitionGo bins draws r (s + 1) (i + 1)) j)
            = s + 1 + rightsBefore (competitionGo bins draws r (s + 1) (i + 1)) j := by
          omega
        rw [harr]
        have hidx : i + (j + 1) = i + 1 + j := by omega
        rw [hidx]
        exact IH
    · have hgo : competitionGo bins draws (r + 1) s i =
          (comp_p_right bins s, 0) :: competitionGo bins draws r s (i + 1) := by
        simp [competitionGo, h]
      cases j with
      | zero =>
        rw [hgo]
        refine ⟨by simp [rightsBefore], by simp [h]⟩
      | succ j =>
        have hj2 : j < r := by omega
        have IH := ih s (i + 1) j hj2
        rw [hgo]
        simp only [List.getD_cons_succ]
        have hrb : rightsBefore
            ((comp_p_right bins s, 0) :: competitionGo bins draws r s (i + 1))
            (j + 1) = rightsBefore (competitionGo bins draws r s (i + 1)) j := by
          simp [rightsBefore, List.take_succ_cons]
        rw [hrb]
        have hidx : i + (j + 1) = i + 1 + j := by omega
        rw [hidx]
        exact IH

theorem paretoGo_length (draws : Nat → Rat) :
    ∀ r s i, (paretoGo draws r s i).length = r := by
  intro r
  induction r with
  | zero => intro s i; rfl
  | succ r ih =>
    intro s i
    simp only [paretoGo]
    by_cases h : draws i < pareto_p_right s
    · simp [h, ih]
    · simp [h, ih]

theorem paretoGo_spec (draws : Nat → Rat) :
    ∀ r s i j, j < r →
      ((paretoGo draws r s i).getD j (0, 0)).1 =
        pareto_p_right (s + leftsBefore (paretoGo draws r s i) j) ∧
      ((paretoGo draws r s i).getD j (0, 0)).2 =
        (if draws (i + j) < ((paretoGo draws r s i).getD j (0, 0)).1
         then 1 else 0) := by
  intro r
  induction r with
  | zero => intro s i j hj; exact absurd hj (Nat.not_lt_zero j)
  | succ r ih =>
    intro s i j hj
    by_cases h : draws i < pareto_p_right s
    · have hgo : paretoGo draws (r + 1) s i =
          (pareto_p_right s, 1) :: paretoGo draws r s (i + 1) := by
        simp [paretoGo, h]
      cases j with
      | zero =>
        rw [hgo]
        refine ⟨by simp [leftsBefore], by simp [h]⟩
      | succ j =>
        have hj2 : j < r := by omega
        have IH := ih s (i + 1) j hj2
        rw [hgo]
        simp only [List.getD_cons_succ]
        have hlb : leftsBefore
            ((pareto_p_right s, 1) :: paretoGo draws r s (i + 1)) (j + 1)
            = leftsBefore (paretoGo draws r s (i + 1)) j := by
          simp [leftsBefore, List.take_succ_cons]
        rw [hlb]
        have hidx : i + (j + 1) = i + 1 + j := by omega
        rw [hidx]
        exact IH
    · have hgo : paretoGo draws (r + 1) s i =
          (pareto_p_right s, 0) :: paretoGo draws r (s + 1) (i + 1) := by
        simp [paretoGo, h]
      cases j with
      | zero =>
        rw [hgo]
        refine ⟨by simp [leftsBefore], by simp [h]⟩
      | succ j =>
        have hj2 : j < r := by omega
        have IH := ih (s + 1) (i + 1) j hj2
        rw [hgo]
        simp only [List.getD_cons_succ]
        have hlb : leftsBefore
            ((pareto_p_right s, 0) :: paretoGo draws r (s + 1) (i + 1)) (j + 1)
            = 1 + leftsBefore (paretoGo draws r (s + 1) (i + 1)) j := by
          simp [leftsBefore, List.take_succ_cons]
        rw [hlb]
        have harr : s + (1 + leftsBefore (paretoGo draws r (s + 1) (i + 1)) j)
            = s + 1 + leftsBefore (paretoGo draws r (s + 1) (i + 1)) j := by omega
        rw [harr]
        have hidx : i + (j + 1) = i + 1 + j := by omega
        rw [hidx]
        exact IH

theorem comp_p_right_le_half (bins : List Nat) (rights : Nat) :
    comp_p_right bins rights ≤ 1 / 2 := by
  unfold comp_p_right
  by_cases h : 0 < comp_k bins rights
  · simp only [h, if_pos]
    exact min_le_right _ _
  · simp [h]

theorem comp_p_right_of_zero (bins : List Nat) (h : ∀ x ∈ bins, x = 0)
    (rights : Nat) : comp_p_right bins rights = 1 / 2 := by
  unfold comp_p_right comp_k
  by_cases hb : bins = []
  · simp [hb]
  · simp [hb, drop_sum_zero bins h (rights + 1)]

theorem comp_k_eq_drop_sum (bins : List Nat) (rights : Nat) :
    comp_k bins rights = (bins.drop (rights + 1)).sum := by
  unfold comp_k
  by_cases hb : bins = []
  · simp [hb]
  · simp [hb]

/-! ### Trajectory-builder lemmas -/

theorem build_path_rows_length (choices : List Nat) :
    ∀ r row col l, build_path_rows choices r row col = some l → l.length = r := by
  intro r
  induction r with
  | zero =>
    intro row col l h
    simp only [build_path_rows] at h
    cases h
    rfl
  | succ r ih =>
    intro row col l h
    simp only [build_path_rows] at h
    cases hg : choices[row]? with
    | none => rw [hg] at h; cases h
    | some d =>
      rw [hg] at h
      dsimp only at h
      cases hr : build_path_rows choices r (row + 1) (col + d) with
      | none => rw [hr] at h; cases h
      | some rest =>
        rw [hr] at h
        dsimp only at h
        cases h
        simp [ih (row + 1) (col + d) rest hr]

theorem build_path_rows_spec (choices : List Nat) :
    ∀ r row col, row + r ≤ choices.length →
      ∃ l, build_path_rows choices r row col = some l ∧ l.length = r ∧
        ∀ j, j < r → l.getD j (0, 0) =
          row_waypoint (row + j) (col + ((choices.drop row).take j).sum)
            (choices.getD (row + j) 0) := by
  intro r
  induction r with
  | zero =>
    intro row col _
    exact ⟨[], rfl, rfl, fun j hj => absurd hj (Nat.not_lt_zero j)⟩
  | succ r ih =>
    intro row col hle
    have hrow : row < choices.length := by omega
    have hg : choices[row]? = some (choices.getD row 0) :=
      getD_of_lt choices row 0 hrow
    obtain ⟨l2, hl2, hlen2, hspec2⟩ :=
      ih (row + 1) (col + choices.getD row 0) (by omega)
    refine ⟨row_waypoint row col (choices.getD row 0) :: l2, ?_, by simp [hlen2], ?_⟩
    · simp only [build_path_rows, hg, hl2]
    · intro j hj
      cases j with
      | zero =>
        simp
      | succ j =>
        have hj2 : j < r := by omega
        have hdrop : choices.drop row = choices.getD row 0 :: choices.drop (row + 1) :=
          drop_eq_getD_cons choices row hrow
        have e1 : row + (j + 1) = row + 1 + j := by omega
        have := hspec2 j hj2
        simp only [List.getD_cons_succ, this, hdrop, List.take_succ_cons,
          List.sum_cons, e1]
        have e2 : col + (choices.getD row 0 + ((choices.drop (row + 1)).take j).sum)
            = col + choices.getD row 0 + ((choices.drop (row + 1)).take j).sum := by
          omega
        rw [e2]

theorem build_path_spec (choices : List Nat) (fb : Nat)
    (h1 : choices.length = NUM_ROWS) :
    ∃ p, build_path choices fb = some p ∧ p.length = NUM_ROWS + 2 ∧
      p.getD 0 (0, 0) = entry_point ∧
      (∀ j, j < NUM_ROWS →
        p.getD (j + 1) (0, 0) = row_waypoint j (colAt choices j) (choices.getD j 0)) ∧
      p.getD (NUM_ROWS + 1) (0, 0) = (bin_center_x fb, (BIN_TOP : Rat) + 10) := by
  obtain ⟨l, hl, hlen, hspec⟩ := build_path_rows_spec choices NUM_ROWS 0 0 (by omega)
  refine ⟨entry_point :: l ++ [(bin_center_x fb, (BIN_TOP : Rat) + 10)], ?_, ?_, rfl, ?_, ?_⟩
  · simp only [build_path, hl]
  · simp [hlen]
  · intro j hj
    have hja : j + 1 < (entry_point :: l).length := by simp [hlen]; omega
    have h1 : ((entry_point :: l) ++ [(bin_center_x fb, (BIN_TOP : Rat) + 10)]).getD
        (j + 1) (0, 0) = (entry_point :: l).getD (j + 1) (0, 0) :=
      getD_append_left _ _ (j + 1) (0, 0) hja
    have := hspec j hj
    rw [h1, List.getD_cons_succ, this]
    simp only [Nat.zero_add, List.drop_zero]
    rfl
  · have hlen2 : (entry_point :: l).length = NUM_ROWS + 1 := by simp [hlen]
    have h2 := getD_append_length (entry_point :: l)
      (bin_center_x fb, (BIN_TOP : Rat) + 10) (0, 0)
    rw [hlen2] at h2
    simpa using h2

/-! ### Ball-update and constructor lemmas -/

theorem lt_of_getElem?_some {α : Type} (l : List α) (i : Nat) (a : α)
    (h : l[i]? = some a) : i < l.length := by
  by_contra hc
  push_neg at hc
  rw [List.getElem?_eq_none hc] at h
  cases h

theorem getD_of_getElem?_some (l : List Nat) (i a : Nat) (h : l[i]? = some a) :
    l.getD i 0 = a := by
  have hlt := lt_of_getElem?_some l i a h
  have h2 := getD_of_lt l i 0 hlt
  rw [h] at h2
  cases h2
  rfl

theorem moveAlong_eq (b : Ball) (t : Rat) (seg : Nat) (h : seg + 1 < b.path.length) :
    moveAlong b t seg = some { b with
      t := t
      segment := seg
      x := (b.path.getD seg (0, 0)).1 +
        ((b.path.getD (seg + 1) (0, 0)).1 - (b.path.getD seg (0, 0)).1) * smoothstep t
      y := (b.path.getD seg (0, 0)).2 +
        ((b.path.getD (seg + 1) (0, 0)).2 - (b.path.getD seg (0, 0)).2) * smoothstep t } := by
  have h0 : b.path[seg]? = some (b.path.getD seg (0, 0)) :=
    getD_of_lt _ _ _ (by omega)
  have h1 : b.path[seg + 1]? = some (b.path.getD (seg + 1) (0, 0)) :=
    getD_of_lt _ _ _ h
  simp only [moveAlong, h0, h1]

theorem update_of_landed (b : Ball) (h : b.landed = true) : Ball.update b = some b := by
  simp [Ball.update, h]

theorem update_no_wrap (b : Ball) (h1 : b.landed = false) (h2 : b.t + b.speed < 1) :
    Ball.update b = moveAlong b (b.t + b.speed) b.segment := by
  simp only [Ball.update, h1, Bool.false_eq_true, if_false]
  rw [if_neg (not_le.mpr h2)]

theorem update_wrap_land (b : Ball) (h1 : b.landed = false) (h2 : 1 ≤ b.t + b.speed)
    (h3 : b.path.length - 1 ≤ b.segment + 1) (h4 : b.path ≠ []) :
    Ball.update b = some { b with
      t := b.t + b.speed - 1
      segment := b.segment + 1
      landed := true
      x := (b.path.getLastD (0, 0)).1
      y := (b.path.getLastD (0, 0)).2 } := by
  have hlast := getLast?_eq_getLastD b.path (0, 0) h4
  simp only [Ball.update, h1, Bool.false_eq_true, if_false]
  rw [if_pos h2, if_pos h3, hlast]

theorem update_wrap_glide (b : Ball) (h1 : b.landed = false) (h2 : 1 ≤ b.t + b.speed)
    (h3 : ¬(b.path.length - 1 ≤ b.segment + 1)) :
    Ball.update b = moveAlong b (b.t + b.speed - 1) (b.segment + 1) := by
  simp only [Ball.update, h1, Bool.false_eq_true, if_false]
  rw [if_pos h2, if_neg h3]

theorem mkBall_spec (mode : String) (bins : List Nat) (draws : Nat → Rat)
    (sp : Rat) (ci : Nat) (jit : Color) (b : Ball)
    (h : mkBall mode bins draws sp ci jit = some b) :
    b.choices = generate_choices mode bins draws ∧
    b.final_bin = (generate_choices mode bins draws).sum ∧
    build_path (generate_choices mode bins draws)
      ((generate_choices mode bins draws).sum) = some b.path ∧
    b.segment = 0 ∧ b.t = 0 ∧ b.speed = sp ∧ b.landed = false := by
  unfold mkBall at h
  cases hbp : build_path (generate_choices mode bins draws)
      ((generate_choices mode bins draws).sum) with
  | none => rw [hbp] at h; cases h
  | some path =>
    rw [hbp] at h
    dsimp only at h
    cases hx : path[0]? with
    | none => rw [hx] at h; cases h
    | some xy =>
      rw [hx] at h
      dsimp only at h
      cases hp : palettes mode with
      | none => rw [hp] at h; cases h
      | some pal =>
        rw [hp] at h
        dsimp only at h
        cases hb2 : pal[ci % pal.length]? with
        | none => rw [hb2] at h; cases h
        | some base =>
          rw [hb2] at h
          dsimp only at h
          cases h
          exact ⟨rfl, rfl, rfl, rfl, rfl, rfl, rfl⟩

theorem mkBall_ballInv (mode : String) (bins : List Nat) (draws : Nat → Rat)
    (sp : Rat) (ci : Nat) (jit : Color) (b : Ball)
    (h : mkBall mode bins draws sp ci jit = some b) :
    BallInv b ∧ b.landed = false ∧ b.path.length = NUM_ROWS + 2 := by
  obtain ⟨_, _, hbp, hseg, _, _, hland⟩ :=
    mkBall_spec mode bins draws sp ci jit b h
  have hplen : b.path.length = NUM_ROWS + 2 := by
    unfold build_path at hbp
    cases hr : build_path_rows (generate_choices mode bins draws) NUM_ROWS 0 0 with
    | none => rw [hr] at hbp; cases hbp
    | some mids =>
      rw [hr] at hbp
      dsimp only at hbp
      have hpe := Option.some.inj hbp
      have hml := build_path_rows_length (generate_choices mode bins draws)
        NUM_ROWS 0 0 mids hr
      rw [← hpe]
      simp [hml]
  refine ⟨⟨by omega, fun _ => by omega⟩, hland, hplen⟩

theorem update_preserves_inv (b : Ball) (h : BallInv b) :
    ∃ b1, Ball.update b = some b1 ∧ BallInv b1 ∧ b1.path = b.path ∧
      b1.speed = b.speed := by
  obtain ⟨hlen2, hseg⟩ := h
  cases hland : b.landed with
  | true =>
    exact ⟨b, update_of_landed b hland, ⟨hlen2, fun hf => by rw [hland] at hf; cases hf⟩,
      rfl, rfl⟩
  | false =>
    have hseg2 : b.segment + 1 < b.path.length := hseg hland
    by_cases ht : b.t + b.speed < 1
    · rw [update_no_wrap b hland ht, moveAlong_eq b (b.t + b.speed) b.segment hseg2]
      exact ⟨_, rfl, ⟨hlen2, fun _ => hseg2⟩, rfl, rfl⟩
    · have ht2 : 1 ≤ b.t + b.speed := not_lt.mp ht
      by_cases hl : b.path.length - 1 ≤ b.segment + 1
      · have hne : b.path ≠ [] := by
          intro hc
          rw [hc] at hlen2
          simp at hlen2
        rw [update_wrap_land b hland ht2 hl hne]
        refine ⟨_, rfl, ⟨hlen2, fun hf => by cases hf⟩, rfl, rfl⟩
      · have hseg3 : b.segment + 1 + 1 < b.path.length := by omega
        rw [update_wrap_glide b hland ht2 hl, moveAlong_eq b _ _ hseg3]
        exact ⟨_, rfl, ⟨hlen2, fun _ => hseg3⟩, rfl, rfl⟩

/-! ### Landing-phase and tick lemmas -/

theorem processLandings_spec :
    ∀ (balls : List Ball) (bins binsF : List Nat)
      (lps : List (Rat × Rat × Color)) (act : List Ball),
      processLandings balls bins = some (binsF, lps, act) →
      binsF.length = bins.length ∧
      ∀ i, binsF.getD i 0 = bins.getD i 0 +
        (balls.countP fun bl => bl.landed && bl.final_bin == i) := by
  intro balls
  induction balls with
  | nil =>
    intro bins binsF lps act h
    simp only [processLandings] at h
    cases h
    exact ⟨rfl, fun i => by simp⟩
  | cons bl rest ih =>
    intro bins binsF lps act h
    simp only [processLandings] at h
    cases hland : bl.landed with
    | true =>
      simp only [hland, if_true] at h
      unfold landStep at h
      cases hg : bins[bl.final_bin]? with
      | none => rw [hg] at h; cases h
      | some c =>
        rw [hg] at h
        dsimp only at h
        cases hrec : processLandings rest (bins.set bl.final_bin (c + 1)) with
        | none => rw [hrec] at h; cases h
        | some res =>
          rw [hrec] at h
          dsimp only at h
          cases h
          obtain ⟨hlen, hI⟩ :=
            ih (bins.set bl.final_bin (c + 1)) res.1 res.2.1 res.2.2 (by rw [hrec])
          constructor
          · rw [hlen, List.length_set]
          · intro i
            have hcnt : ((bl :: rest).countP fun x => x.landed && x.final_bin == i)
                = (rest.countP fun x => x.landed && x.final_bin == i)
                  + (if bl.final_bin = i then 1 else 0) := by
              rw [List.countP_cons]
              simp [hland]
            rw [hI i, hcnt]
            by_cases hi : bl.final_bin = i
            · subst hi
              have hlt := lt_of_getElem?_some bins bl.final_bin c hg
              rw [getD_set_self bins bl.final_bin (c + 1) hlt,
                getD_of_getElem?_some bins bl.final_bin c hg]
              simp
              omega
            · rw [getD_set_ne bins bl.final_bin i (c + 1) hi]
              simp [hi]
    | false =>
      simp only [hland, Bool.false_eq_true, if_false] at h
      cases hrec : processLandings rest bins with
      | none => rw [hrec] at h; cases h
      | some res =>
        rw [hrec] at h
        dsimp only at h
        cases h
        obtain ⟨hlen, hI⟩ := ih bins res.1 res.2.1 res.2.2 (by rw [hrec])
        refine ⟨hlen, fun i => ?_⟩
        rw [hI i, List.countP_cons]
        simp [hland]

theorem tick_bins_spec (mode : String) (draws : Nat → Rat) (sp : Rat) (ci : Nat)
    (jit : Color) (s s1 : BoardState) (h : tick mode draws sp ci jit s = some s1) :
    s1.bin_counts.length = s.bin_counts.length ∧
    ∀ i, s.bin_counts.getD i 0 ≤ s1.bin_counts.getD i 0 := by
  unfold tick at h
  cases hp : s.paused with
  | true =>
    rw [hp] at h
    simp only [if_true] at h
    cases h
    exact ⟨rfl, fun i => le_refl _⟩
  | false =>
    rw [hp] at h
    simp only [Bool.false_eq_true, if_false] at h
    cases hsp : spawn_phase mode draws sp ci jit s with
    | none => rw [hsp] at h; cases h
    | some sp2 =>
      rw [hsp] at h
      dsimp only at h
      cases hu : sp2.2.1.mapM Ball.update with
      | none => rw [hu] at h; cases h
      | some upd =>
        rw [hu] at h
        dsimp only at h
        cases hpl : processLandings upd s.bin_counts with
        | none => rw [hpl] at h; cases h
        | some res =>
          rw [hpl] at h
          dsimp only at h
          cases h
          obtain ⟨hlen, hI⟩ :=
            processLandings_spec upd s.bin_counts res.1 res.2.1 res.2.2 (by rw [hpl])
          refine ⟨?_, fun i => ?_⟩
          · dsimp only
            exact hlen
          · dsimp only
            rw [hI i]
            exact Nat.le_add_right _ _

theorem spawn_phase_eq (mode : String) (draws : Nat → Rat) (sp : Rat) (ci : Nat)
    (jit : Color) (s : BoardState) (b : Ball)
    (hst : SPAWN_INTERVAL ≤ s.spawn_timer + 1) (htot : s.total_spawned < MAX_BALLS)
    (hb : mkBall mode s.bin_counts draws sp ci jit = some b) :
    spawn_phase mode draws sp ci jit s
      = some (0, s.active_balls ++ [b], s.total_spawned + 1) := by
  simp only [spawn_phase]
  rw [if_pos ⟨hst, htot⟩, hb]

/-! ### Claim theorems -/

theorem gauss_choices_getD (draws : Nat → Rat) (j : Nat) (hj : j < NUM_ROWS) :
    (gauss_choices draws).getD j 0 = randint01 (draws j) := by
  have hj10 : j < 10 := hj
  interval_cases j <;> rfl

/-- C1: in Competition mode, every row's right-probability is
`comp_p_right` of the number of right decisions made so far, where the
crowding count k is the sum of the bin counts strictly right of that
standing; the probability is 0.5 when k = 0, min(0.5/k, 0.5) when k > 0,
never exceeds 0.5, and is 0.5 on every row when the bin counts are all
zero; a draw below the probability appends 1 and increments the
standing, otherwise 0 is appended and the standing is unchanged. -/
theorem C1_competition_probabilities (bins : List Nat) (draws : Nat → Rat) :
    (competition_rows bins draws).length = NUM_ROWS ∧
    (∀ j, j < NUM_ROWS →
      ((competition_rows bins draws).getD j (0, 0)).1 =
        comp_p_right bins (rightsBefore (competition_rows bins draws) j) ∧
      ((competition_rows bins draws).getD j (0, 0)).2 =
        (if draws j < ((competition_rows bins draws).getD j (0, 0)).1
         then 1 else 0) ∧
      rightsBefore (competition_rows bins draws) (j + 1) =
        rightsBefore (competition_rows bins draws) j +
          ((competition_rows bins draws).getD j (0, 0)).2) ∧
    (∀ rights, comp_k bins rights = (bins.drop (rights + 1)).sum) ∧
    (∀ rights, comp_p_right bins rights ≤ 1 / 2) ∧
    ((∀ x ∈ bins, x = 0) → ∀ rights, comp_p_right bins rights = 1 / 2) ∧
    generate_choices MODE_COMPETITION bins draws =
      (competition_rows bins draws).map Prod.snd := by
  have hlen : (competition_rows bins draws).length = NUM_ROWS :=
    competitionGo_length bins draws NUM_ROWS 0 0
  refine ⟨hlen, ?_, comp_k_eq_drop_sum bins, comp_p_right_le_half bins,
    fun hz => comp_p_right_of_zero bins hz, by rfl⟩
  intro j hj
  obtain ⟨h1, h2⟩ := competitionGo_spec bins draws NUM_ROWS 0 0 j hj
  rw [Nat.zero_add] at h1 h2
  have hcr : competitionGo bins draws NUM_ROWS 0 0 = competition_rows bins draws :=
    rfl
  rw [hcr] at h1 h2
  refine ⟨h1, h2, ?_⟩
  have hjlen : j < (competition_rows bins draws).length := by rw [hlen]; exact hj
  rw [rightsBefore_succ (competition_rows bins draws) j hjlen, h2]
  by_cases hd : draws j < ((competition_rows bins draws).getD j (0, 0)).1
  · simp [hd]
  · simp [hd]

/-- Witness for C1 at bins [0, 0, 3] and constant draw 1/4: the first
row's probability matches the competition formula. -/
theorem C1_witness :
    ((competition_rows [0, 0, 3] fun _ => (1 : Rat) / 4).getD 0 (0, 0)).1 =
      comp_p_right [0, 0, 3]
        (rightsBefore (competition_rows [0, 0, 3] fun _ => (1 : Rat) / 4) 0) :=
  ((C1_competition_probabilities [0, 0, 3] fun _ => (1 : Rat) / 4).2.1 0
    (by decide)).1

/-- C2: in Pareto mode, every row's right-probability is
`0.5 / max(lefts, 1)` where lefts counts that ball's own prior left
decisions; row 0 always uses 0.5; after k >= 1 straight lefts the next
row uses exactly 0.5/k; a right decision leaves lefts unchanged and a
left decision increments it; bin counts play no part. -/
theorem C2_pareto_probabilities (draws : Nat → Rat) :
    (pareto_rows draws).length = NUM_ROWS ∧
    (∀ j, j < NUM_ROWS →
      ((pareto_rows draws).getD j (0, 0)).1 =
        pareto_p_right (leftsBefore (pareto_rows draws) j) ∧
      ((pareto_rows draws).getD j (0, 0)).2 =
        (if draws j < ((pareto_rows draws).getD j (0, 0)).1 then 1 else 0) ∧
      leftsBefore (pareto_rows draws) (j + 1) =
        leftsBefore (pareto_rows draws) j +
          (if ((pareto_rows draws).getD j (0, 0)).2 = 0 then 1 else 0)) ∧
    ((pareto_rows draws).getD 0 (0, 0)).1 = 1 / 2 ∧
    (∀ k, 1 ≤ k → k < NUM_ROWS →
      (∀ j, j < k → ((pareto_rows draws).getD j (0, 0)).2 = 0) →
      ((pareto_rows draws).getD k (0, 0)).1 = 1 / 2 / (k : Rat)) ∧
    (∀ bins bins2, generate_choices MODE_PARETO bins draws
      = generate_choices MODE_PARETO bins2 draws) ∧
    (∀ bins, generate_choices MODE_PARETO bins draws
      = (pareto_rows draws).map Prod.snd) := by
  have hlen : (pareto_rows draws).length = NUM_ROWS :=
    paretoGo_length draws NUM_ROWS 0 0
  have hspec : ∀ j, j < NUM_ROWS →
      ((pareto_rows draws).getD j (0, 0)).1 =
        pareto_p_right (leftsBefore (pareto_rows draws) j) ∧
      ((pareto_rows draws).getD j (0, 0)).2 =
        (if draws j < ((pareto_rows draws).getD j (0, 0)).1 then 1 else 0) := by
    intro j hj
    obtain ⟨h1, h2⟩ := paretoGo_spec draws NUM_ROWS 0 0 j hj
    rw [Nat.zero_add] at h1 h2
    exact ⟨h1, h2⟩
  refine ⟨hlen, ?_, ?_, ?_, fun bins bins2 => rfl, fun bins => rfl⟩
  · intro j hj
    obtain ⟨h1, h2⟩ := hspec j hj
    refine ⟨h1, h2, ?_⟩
    have hjlen : j < (pareto_rows draws).length := by rw [hlen]; exact hj
    rw [leftsBefore_succ (pareto_rows draws) j hjlen]
  · have h0 := (hspec 0 (by decide)).1
    rw [h0]
    have : leftsBefore (pareto_rows draws) 0 = 0 := rfl
    rw [this]
    norm_num [pareto_p_right]
  · intro k hk1 hk10 hall
    have hlb : ∀ m, m ≤ k → leftsBefore (pareto_rows draws) m = m := by
      intro m
      induction m with
      | zero => intro _; rfl
      | succ m ihm =>
        intro hm
        have hmlen : m < (pareto_rows draws).length := by rw [hlen]; omega
        rw [leftsBefore_succ (pareto_rows draws) m hmlen, ihm (by omega),
          hall m (by omega)]
        simp
    have hk := (hspec k hk10).1
    rw [hk, hlb k (le_refl k)]
    unfold pareto_p_right
    rw [Nat.max_eq_left hk1]

unseal Rat.inv Rat.mul Rat.add Rat.sub in
/-- Witness for C2 with every draw at 1 (all rows decide left): rows 0-2
are all left, so row 3 uses probability exactly 0.5/3. -/
theorem C2_witness :
    ((pareto_rows fun _ => (1 : Rat)).getD 3 (0, 0)).1 = 1 / 2 / (3 : Rat) :=
  (C2_pareto_probabilities fun _ => (1 : Rat)).2.2.2.1 3 (by decide) (by decide)
    (by decide)

/-- C3: in Classical mode the decision sequence has exactly R = 10
binary values, each one the image of its own independent uniform draw
under the fair split `randint01` (value 0 exactly on the lower half of
the unit interval, so each value has probability 0.5), and the result is
the same for any two `bin_counts` arguments over the same draws. -/
theorem C3_classical_fair (bins bins2 : List Nat) (draws : Nat → Rat) :
    (generate_choices MODE_GAUSS bins draws).length = 10 ∧
    (∀ x ∈ generate_choices MODE_GAUSS bins draws, x = 0 ∨ x = 1) ∧
    (∀ j, j < 10 →
      (generate_choices MODE_GAUSS bins draws).getD j 0 = randint01 (draws j) ∧
      ((generate_choices MODE_GAUSS bins draws).getD j 0 = 0 ↔
        draws j < 1 / 2)) ∧
    generate_choices MODE_GAUSS bins draws
      = generate_choices MODE_GAUSS bins2 draws := by
  have hg : generate_choices MODE_GAUSS bins draws = gauss_choices draws := rfl
  refine ⟨by rw [hg]; rfl, ?_, ?_, rfl⟩
  · rw [hg]
    intro x hx
    simp only [gauss_choices, List.mem_map] at hx
    obtain ⟨i, _, hi⟩ := hx
    rw [← hi]
    unfold randint01
    by_cases hd : draws i < 1 / 2
    · left; rw [if_pos hd]
    · right; rw [if_neg hd]
  · intro j hj
    have hgd : (generate_choices MODE_GAUSS bins draws).getD j 0
        = randint01 (draws j) := by
      rw [hg]
      exact gauss_choices_getD draws j hj
    refine ⟨hgd, ?_⟩
    rw [hgd]
    unfold randint01
    by_cases hd : draws j < 1 / 2
    · rw [if_pos hd]
      exact iff_of_true rfl hd
    · rw [if_neg hd]
      exact iff_of_false (by decide) hd

/-- Witness for C3 at constant draw 1/4: row 0's decision is the fair
image of its draw. -/
theorem C3_witness :
    (generate_choices MODE_GAUSS [5] fun _ => (1 : Rat) / 4).getD 0 0
      = randint01 ((1 : Rat) / 4) :=
  ((C3_classical_fair [5] [] fun _ => (1 : Rat) / 4).2.2.1 0 (by decide)).1

theorem getD_replicate_zero : ∀ (n i : Nat), (List.replicate n (0 : Nat)).getD i 0 = 0 := by
  intro n
  induction n with
  | zero => intro i; simp
  | succ n ih =>
    intro i
    cases i with
    | zero => simp
    | succ i => simp [List.replicate_succ, ih i]

/-- C4: every decision sequence of R binary values builds a trajectory of
exactly R + 2 waypoints; the waypoint for row i is computed from column
`colAt i` (the sum of the first i decisions), so the column used at row
i + 1 is the column used at row i plus decisions[i]; the terminal bin is
the sum of all decisions, equals the final column value, lies in [0, R],
and the path ends at that bin's center. -/
theorem C4_trajectory_structure (choices : List Nat)
    (h1 : choices.length = NUM_ROWS) (h2 : ∀ x ∈ choices, x ≤ 1) :
    ∃ p, build_path choices choices.sum = some p ∧
      p.length = NUM_ROWS + 2 ∧
      (∀ i, i < NUM_ROWS →
        p.getD (i + 1) (0, 0) = row_waypoint i (colAt choices i) (choices.getD i 0)) ∧
      (∀ i, i < NUM_ROWS →
        colAt choices (i + 1) = colAt choices i + choices.getD i 0) ∧
      choices.sum = colAt choices NUM_ROWS ∧
      choices.sum ≤ NUM_ROWS ∧
      p.getD (NUM_ROWS + 1) (0, 0)
        = (bin_center_x choices.sum, (BIN_TOP : Rat) + 10) := by
  obtain ⟨p, hp, hlen, _, hrow, hlast⟩ := build_path_spec choices choices.sum h1
  refine ⟨p, hp, hlen, hrow, ?_, ?_, ?_, hlast⟩
  · intro i hi
    unfold colAt
    exact sum_take_succ_getD choices i (by omega)
  · unfold colAt
    rw [← h1, List.take_length]
  · rw [← h1]
    exact sum_le_length choices h2

/-- Witness for C4 at an alternating decision sequence. -/
theorem C4_witness :
    ∃ p, build_path [1, 0, 1, 0, 1, 0, 1, 0, 1, 0]
        ([1, 0, 1, 0, 1, 0, 1, 0, 1, 0] : List Nat).sum = some p ∧
      p.length = NUM_ROWS + 2 := by
  obtain ⟨p, hp, hlen, _⟩ :=
    C4_trajectory_structure [1, 0, 1, 0, 1, 0, 1, 0, 1, 0] (by decide) (by decide)
  exact ⟨p, hp, hlen⟩

unseal Rat.inv Rat.mul Rat.add Rat.sub in
/-- Counterexample to C5 as stated: for the all-left ball the trajectory
builds fine, but its last waypoint sits at vertical coordinate
BIN_TOP + 10, strictly below the bins' top edge BIN_TOP. -/
theorem C5_counterexample :
    build_path (List.replicate NUM_ROWS 0) 0 ≠ none ∧
    (((build_path (List.replicate NUM_ROWS 0) 0).getD []).getD
      (NUM_ROWS + 1) (0, 0)).2 = (BIN_TOP : Rat) + 10 ∧
    ((BIN_TOP : Rat) + 10) ≠ (BIN_TOP : Rat) := by
  exact ⟨by decide, by decide, by decide⟩

/-- C5 (amended): the first waypoint is the fixed entry point directly
above the topmost peg (same x as peg (0,0), strictly smaller y,
independent of the decisions); the last waypoint is horizontally at the
center of bin TerminalBin and vertically at a fixed offset of 10 units
below the bins' top edge (BIN_TOP + 10). -/
theorem C5_endpoints (choices : List Nat) (h1 : choices.length = NUM_ROWS) :
    ∃ p, build_path choices choices.sum = some p ∧
      p.getD 0 (0, 0) = entry_point ∧
      entry_point.1 = (peg_pos 0 0).1 ∧
      entry_point.2 < (peg_pos 0 0).2 ∧
      p.getD (NUM_ROWS + 1) (0, 0)
        = (bin_center_x choices.sum, (BIN_TOP : Rat) + 10) := by
  obtain ⟨p, hp, _, h0, _, hlast⟩ := build_path_spec choices choices.sum h1
  refine ⟨p, hp, h0, ?_, ?_, hlast⟩
  · norm_num [entry_point, peg_pos]
  · norm_num [entry_point, peg_pos, BOARD_TOP]

/-- Witness for C5 (amended) at the all-right decision sequence. -/
theorem C5_witness :
    ∃ p, build_path (List.replicate NUM_ROWS 1)
        (List.replicate NUM_ROWS 1 : List Nat).sum = some p ∧
      p.getD 0 (0, 0) = entry_point := by
  obtain ⟨p, hp, h0, _⟩ := C5_endpoints (List.replicate NUM_ROWS 1) (by decide)
  exact ⟨p, hp, h0⟩

/-- C6: one update of a not-yet-landed ball adds the speed to t; while
t stays below 1 the position is the straight-line interpolation between
the current segment's endpoints with the smoothstep ease; when t reaches
1 it wraps by 1 and the segment advances, after which the ball either
lands (no next segment: landed is set and the position snaps to the
final waypoint) or interpolates along the new segment with the wrapped
progress; the speed is never changed. -/
theorem C6_update_step (b : Ball) (h1 : b.landed = false)
    (h2 : b.segment + 1 < b.path.length) :
    (b.t + b.speed < 1 →
      Ball.update b = some { b with
        t := b.t + b.speed
        x := (b.path.getD b.segment (0, 0)).1 +
          ((b.path.getD (b.segment + 1) (0, 0)).1 - (b.path.getD b.segment (0, 0)).1)
            * smoothstep (b.t + b.speed)
        y := (b.path.getD b.segment (0, 0)).2 +
          ((b.path.getD (b.segment + 1) (0, 0)).2 - (b.path.getD b.segment (0, 0)).2)
            * smoothstep (b.t + b.speed) }) ∧
    (1 ≤ b.t + b.speed →
      (b.path.length ≤ b.segment + 2 →
        Ball.update b = some { b with
          t := b.t + b.speed - 1
          segment := b.segment + 1
          landed := true
          x := (b.path.getLastD (0, 0)).1
          y := (b.path.getLastD (0, 0)).2 }) ∧
      (b.segment + 2 < b.path.length →
        Ball.update b = some { b with
          t := b.t + b.speed - 1
          segment := b.segment + 1
          x := (b.path.getD (b.segment + 1) (0, 0)).1 +
            ((b.path.getD (b.segment + 2) (0, 0)).1
              - (b.path.getD (b.segment + 1) (0, 0)).1)
              * smoothstep (b.t + b.speed - 1)
          y := (b.path.getD (b.segment + 1) (0, 0)).2 +
            ((b.path.getD (b.segment + 2) (0, 0)).2
              - (b.path.getD (b.segment + 1) (0, 0)).2)
              * smoothstep (b.t + b.speed - 1) })) ∧
    (∀ b1, Ball.update b = some b1 → b1.speed = b.speed) := by
  refine ⟨?_, ?_, ?_⟩
  · intro ht
    rw [update_no_wrap b h1 ht, moveAlong_eq b (b.t + b.speed) b.segment h2]
  · intro ht
    constructor
    · intro hl
      have hl2 : b.path.length - 1 ≤ b.segment + 1 := by omega
      have hne : b.path ≠ [] := by
        intro hc
        rw [hc] at h2
        simp at h2
      exact update_wrap_land b h1 ht hl2 hne
    · intro hlt
      have hl2 : ¬(b.path.length - 1 ≤ b.segment + 1) := by omega
      have h3 : b.segment + 1 + 1 < b.path.length := by omega
      rw [update_wrap_glide b h1 ht hl2, moveAlong_eq b (b.t + b.speed - 1)
        (b.segment + 1) h3]
  · intro b1 hb1
    have hinv : BallInv b := ⟨by omega, fun _ => h2⟩
    obtain ⟨b2, hup, _, _, hsp⟩ := update_preserves_inv b hinv
    rw [hup] at hb1
    cases hb1
    exact hsp

unseal Rat.inv Rat.mul Rat.add Rat.sub in
/-- Witness for C6: the sample mid-flight ball updates successfully and
keeps its speed. -/
theorem C6_witness : ∃ b1, Ball.update wBall6 = some b1 ∧ b1.speed = wBall6.speed := by
  have h := C6_update_step wBall6 rfl (by decide)
  exact ⟨_, h.1 (by decide), h.2.2 _ (h.1 (by decide))⟩

/-- Counterexample to C7 as stated: decision generation with the
malformed mode "classical" is not rejected; it silently returns the
empty list, a degenerate decision sequence of length 0 instead of R. -/
theorem C7_counterexample :
    generate_choices "classical" [1, 2, 3] (fun _ => (1 : Rat) / 4) = [] ∧
    ([] : List Nat).length ≠ NUM_ROWS := by
  exact ⟨rfl, by decide⟩

/-- C7 (amended): an unrecognized mode makes `generate_choices` fall
through every branch and silently return the empty decision sequence
(no rejection at that boundary), while `Ball` creation does fail — the
empty sequence cannot fill R rows, so path building stops at the
out-of-range read `choices[0]` (and the palette lookup would also
fail). -/
theorem C7_malformed_mode (mode : String) (bins : List Nat) (draws : Nat → Rat)
    (sp : Rat) (ci : Nat) (jit : Color)
    (h1 : mode ≠ MODE_GAUSS) (h2 : mode ≠ MODE_PARETO)
    (h3 : mode ≠ MODE_COMPETITION) :
    generate_choices mode bins draws = [] ∧
    mkBall mode bins draws sp ci jit = none := by
  have hgc : generate_choices mode bins draws = [] := by
    unfold generate_choices
    rw [if_neg h1, if_neg h2, if_neg h3]
  refine ⟨hgc, ?_⟩
  unfold mkBall
  rw [hgc]
  rfl

/-- Witness for C7 (amended) at the concrete malformed mode "classical". -/
theorem C7_witness :
    generate_choices "classical" [] (fun _ => (1 : Rat) / 4) = [] ∧
    mkBall "classical" [] (fun _ => (1 : Rat) / 4) 1 0 (0, 0, 0) = none :=
  C7_malformed_mode "classical" [] (fun _ => (1 : Rat) / 4) 1 0 (0, 0, 0)
    (by decide) (by decide) (by decide)

/-- C8: bin counts (natural numbers, hence never negative) start all
zero at every run start and reset; the landing phase changes them only
by adding, at every index, the number of that tick's landed balls whose
terminal bin is the index; consequently every tick leaves each entry
unchanged or larger (monotonically non-decreasing), and the length never
changes. Decision generation is a pure function that takes the counts
read-only. -/
theorem C8_bin_counts_invariants :
    (∀ i, initBoardState.bin_counts.getD i 0 = 0) ∧
    (∀ balls bins binsF lps act,
      processLandings balls bins = some (binsF, lps, act) →
      binsF.length = bins.length ∧
      ∀ i, binsF.getD i 0 = bins.getD i 0 +
        (balls.countP fun bl => bl.landed && bl.final_bin == i)) ∧
    (∀ mode draws sp ci jit s s1, tick mode draws sp ci jit s = some s1 →
      s1.bin_counts.length = s.bin_counts.length ∧
      ∀ i, s.bin_counts.getD i 0 ≤ s1.bin_counts.getD i 0) := by
  refine ⟨?_, processLandings_spec, ?_⟩
  · intro i
    exact getD_replicate_zero NUM_BINS i
  · intro mode draws sp ci jit s s1 h
    exact tick_bins_spec mode draws sp ci jit s s1 h

unseal Rat.inv Rat.mul Rat.add Rat.sub in
/-- Witness for C8: a tick in which the sample landed ball is recorded
leaves bin 3's count no smaller than before (here it grows 0 to 1). -/
theorem C8_witness :
    (List.replicate NUM_BINS 0).getD 3 0 ≤
      ([0, 0, 0, 1, 0, 0, 0, 0, 0, 0, 0] : List Nat).getD 3 0 :=
  (C8_bin_counts_invariants.2.2 MODE_GAUSS (fun _ => (0 : Rat)) 0 0 (0, 0, 0)
    { active_balls := [wBall8], bin_counts := List.replicate NUM_BINS 0, landed_positions := [], spawn_timer := 0, total_spawned := 0, paused := false }
    { active_balls := [], bin_counts := [0, 0, 0, 1, 0, 0, 0, 0, 0, 0, 0], landed_positions := [(236, 653, (0, 0, 0))], spawn_timer := 1, total_spawned := 0, paused := false }
    (by decide)).2 3

/-- C9: when the spawn conditions hold on a non-paused tick, the ball
spawned that tick has its decisions generated from the tick's starting
bin counts, and the tick then runs the update and landing phases against
those same starting counts — the spawn read happens strictly before any
of the tick's landing increments. -/
theorem C9_spawn_reads_pre_tick_counts (mode : String) (draws : Nat → Rat)
    (sp : Rat) (ci : Nat) (jit : Color) (s : BoardState) (b : Ball)
    (hp : s.paused = false)
    (hst : SPAWN_INTERVAL ≤ s.spawn_timer + 1)
    (htot : s.total_spawned < MAX_BALLS)
    (hb : mkBall mode s.bin_counts draws sp ci jit = some b) :
    b.choices = generate_choices mode s.bin_counts draws ∧
    tick mode draws sp ci jit s =
      (match (s.active_balls ++ [b]).mapM Ball.update with
       | none => none
       | some updated =>
         match processLandings updated s.bin_counts with
         | none => none
         | some res =>
           some { s with
                  active_balls := res.2.2
                  bin_counts := res.1
                  landed_positions := s.landed_positions ++ res.2.1
                  spawn_timer := 0
                  total_spawned := s.total_spawned + 1 }) := by
  refine ⟨(mkBall_spec mode s.bin_counts draws sp ci jit b hb).1, ?_⟩
  unfold tick
  rw [hp]
  simp only [Bool.false_eq_true, if_false]
  rw [spawn_phase_eq mode draws sp ci jit s b hst htot hb]

unseal Rat.inv Rat.mul Rat.add Rat.sub in
/-- Witness for C9: the concrete spawned ball's decisions come from the
pre-tick (all-zero) bin counts. -/
theorem C9_witness :
    wBall9.choices = generate_choices MODE_GAUSS wState9.bin_counts
      fun _ => (3 : Rat) / 4 :=
  (C9_spawn_reads_pre_tick_counts MODE_GAUSS (fun _ => (3 : Rat) / 4) (1 / 32) 0
    (0, 0, 0) wState9 wBall9 rfl (by decide) (by decide) (by decide)).1

/-- C10: every ball the constructor returns satisfies the path-bounds
invariant (12 waypoints, segment + 1 in range while in flight) and is
not landed; one update of any ball satisfying the invariant succeeds
(no out-of-range path access) and preserves the invariant; and updating
a landed ball returns it unchanged. -/
theorem C10_update_safety :
    (∀ mode bins draws sp ci jit b, mkBall mode bins draws sp ci jit = some b →
      BallInv b ∧ b.landed = false ∧ b.path.length = NUM_ROWS + 2) ∧
    (∀ b, BallInv b → ∃ b1, Ball.update b = some b1 ∧ BallInv b1) ∧
    (∀ b, b.landed = true → Ball.update b = some b) := by
  refine ⟨mkBall_ballInv, ?_, update_of_landed⟩
  intro b h
  obtain ⟨b1, hu, hi, _, _⟩ := update_preserves_inv b h
  exact ⟨b1, hu, hi⟩

unseal Rat.inv Rat.mul Rat.add Rat.sub in
/-- Witness for C10: the concrete constructed ball satisfies the
invariant and updating the landed sample ball changes nothing. -/
theorem C10_witness :
    BallInv wBall9 ∧ Ball.update wBall8 = some wBall8 :=
  ⟨(C10_update_safety.1 MODE_GAUSS (List.replicate NUM_BINS 0)
      (fun _ => (3 : Rat) / 4) (1 / 32) 0 (0, 0, 0) wBall9 (by decide)).1,
    C10_update_safety.2.2 wBall8 rfl⟩
